import Mathlib

/-!
Shallow embedding of the cnc-tools repository (three batch scripts over a
tabular CSV-like data set) and verification of the frozen claims.

Source files embedded:
  tools/clean_extrusions.py     (row filter / normalizer pass)
  tools/fill_3050_prices.py     (price backfill pass)
  tools/update_xlsx_from_csv.py (spreadsheet sync pass)

Modelling conventions:
  - A row is a list of strings (`Row`); a table is a list of rows.
  - Python string primitives (strip, split, join, substring test, replace,
    endswith) are re-implemented structurally over `List Char`, faithful to
    CPython semantics for the inputs the scripts handle.
  - Python floats are modelled as exact fractions `Int × Int` (numerator,
    positive denominator, never normalized, so every operation is structural
    and kernel-computable).  The scripts only parse decimal literals, scale
    by fixed rationals, round to 2 decimals and format; on the decimal data
    the claims are about, binary doubles and exact fractions coincide.
    Numeric parsing accepts `[sign] digits [. digits]`, the decimal-literal
    fragment of Python `float()` that the data uses.
  - File I/O is abstracted: each pass is a function from the parsed input
    table (list of lines or rows) to the rows that the script writes back.
-/

namespace CncTools

/-! ## Python string primitives over `List Char` -/

/-- Leading-whitespace removal followed by trailing-whitespace removal:
Python `str.strip()`. -/
def stripC (l : List Char) : List Char :=
  ((l.dropWhile Char.isWhitespace).reverse.dropWhile Char.isWhitespace).reverse

/-- Python `str.split(sep)` for a single-character separator: splits at every
occurrence of `sep`, keeping empty pieces (`"".split('-') = [""]`). -/
def splitCh (sep : Char) : List Char → List (List Char)
  | [] => [[]]
  | c :: rest =>
    match splitCh sep rest with
    | [] => [[]]
    | t :: ts => if c = sep then [] :: t :: ts else (c :: t) :: ts

/-- Python `sep.join(pieces)` for a single-character separator. -/
def joinCh (sep : Char) : List (List Char) → List Char
  | [] => []
  | [t] => t
  | t :: ts => t ++ sep :: joinCh sep ts

/-- Python substring test `pat in s` (for the non-empty patterns the scripts
use): some occurrence of `pat` starts at some position of `s`. -/
def occursB (pat : List Char) : List Char → Bool
  | [] => pat.isEmpty
  | c :: rest => pat.isPrefixOf (c :: rest) || occursB pat rest

/-- Fuel-indexed worker for `replaceAllC`; the fuel is an upper bound on the
length of the remaining text, so the recursion is structural. -/
def replaceFuel (pat rep : List Char) : Nat → List Char → List Char
  | 0, s => s
  | _ + 1, [] => []
  | fuel + 1, c :: rest =>
    if pat ≠ [] ∧ pat.isPrefixOf (c :: rest) then
      rep ++ replaceFuel pat rep fuel ((c :: rest).drop pat.length)
    else c :: replaceFuel pat rep fuel rest

/-- Python `s.replace(pat, rep)`: replaces every non-overlapping occurrence
of `pat`, scanning left to right. -/
def replaceAllC (pat rep s : List Char) : List Char :=
  replaceFuel pat rep s.length s

/-- Python code-point comparison of strings: strict lexicographic order. -/
def lexLt : List Char → List Char → Bool
  | [], [] => false
  | [], _ :: _ => true
  | _ :: _, [] => false
  | a :: as, b :: bs => if a < b then true else if b < a then false else lexLt as bs

/-! ## String-level wrappers -/

/-- Python `str.strip()` on Lean strings. -/
def pyStrip (s : String) : String := String.mk (stripC s.data)

/-- Python `s.endswith(pat)`. -/
def endsWithB (s pat : String) : Bool := pat.data.isSuffixOf s.data

/-- Python `s.replace(pat, rep)` on Lean strings. -/
def pyReplace (s pat rep : String) : String :=
  String.mk (replaceAllC pat.data rep.data s.data)

/-- Python `'TAP1' in sku or 'TAP2' in sku`. -/
def hasTapB (s : String) : Bool :=
  occursB "TAP1".data s.data || occursB "TAP2".data s.data

/-- Python `s.isdigit()`: non-empty and all digits. -/
def pyIsDigit (l : List Char) : Bool := !l.isEmpty && l.all (fun c => c.isDigit)

/-! ## Exact numeric model of the scripts' float usage -/

/-- Exact fraction `num / den` with `den > 0` by construction; stands in for
the Python floats flowing through the scripts. -/
abbrev PyNum := Int × Int

/-- Value of a digit string, most significant first. -/
def digitsVal (l : List Char) : Nat := l.foldl (fun a c => a * 10 + (c.toNat - 48)) 0

/-- Parse an unsigned decimal literal `digits [. digits]` (at least one digit). -/
def parseMag (l : List Char) : Option PyNum :=
  match splitCh '.' l with
  | [w] => if pyIsDigit w then some ((digitsVal w : Int), 1) else none
  | [w, f] =>
    if w.all (fun c => c.isDigit) && f.all (fun c => c.isDigit) && (!w.isEmpty || !f.isEmpty) then
      some (((digitsVal w : Int) * (10 : Int) ^ f.length + (digitsVal f : Int)),
            (10 : Int) ^ f.length)
    else none
  | _ => none

/-- Python `float(s)` on the decimal-literal fragment: optional surrounding
whitespace, optional sign, digits with an optional fractional part. -/
def pyFloat (s : String) : Option PyNum :=
  match stripC s.data with
  | '-' :: rest => (parseMag rest).map (fun q => (-q.1, q.2))
  | '+' :: rest => parseMag rest
  | l => parseMag l

/-- Cents value of `q`, rounding ties away from zero
(`decimal.ROUND_HALF_UP` on a 2-decimal quantum). -/
def roundHalfUpCents (q : PyNum) : Int :=
  if q.1 < 0 then -(Int.fdiv (-q.1 * 200 + q.2) (2 * q.2))
  else Int.fdiv (q.1 * 200 + q.2) (2 * q.2)

/-- Cents value of `q`, rounding ties to even (Python `round(x, 2)`). -/
def roundHalfEvenCents (q : PyNum) : Int :=
  let n100 := q.1 * 100
  let fl := Int.fdiv n100 q.2
  let r := n100 - fl * q.2
  if 2 * r < q.2 then fl
  else if q.2 < 2 * r then fl + 1
  else if fl % 2 = 0 then fl else fl + 1

/-- Render a cents count with exactly two decimal places (the common output
shape of `format(d, "f")` on a 2-decimal `Decimal` and of `f"{x:.2f}"`). -/
def fmtCents (n : Int) : String :=
  (if n < 0 then "-" else "") ++ Nat.repr (n.natAbs / 100) ++ "." ++
    (if n.natAbs % 100 < 10 then "0" ++ Nat.repr (n.natAbs % 100)
     else Nat.repr (n.natAbs % 100))

/-- `round2` from tools/fill_3050_prices.py: 2-decimal half-up currency
rounding, rendered with two decimals. -/
def round2 (q : PyNum) : String := fmtCents (roundHalfUpCents q)

/-! ## Shared row / SKU utilities -/

/-- A table row: ordered fields, missing trailing fields read as `""`. -/
abbrev Row := List String

/-- Field access with the missing-trailing-field convention. -/
def field (r : Row) (i : Nat) : String := r.getD i ""

/-- The stripped SKU of a row (`parts[2].strip()` / `r[2].strip()`). -/
def skuOf (r : Row) : String := pyStrip (field r 2)

/-- `make_key_from_sku` from tools/clean_extrusions.py.  In the source both
branches of the `isdigit` test return `'-'.join(parts[:-1])`, and `split`
never returns an empty list, so the conditional is kept only for fidelity. -/
def make_key_from_sku (sku : String) : String :=
  let parts := splitCh '-' sku.data
  if parts ≠ [] ∧ pyIsDigit (parts.getLastD []) = true then
    String.mk (joinCh '-' parts.dropLast)
  else
    String.mk (joinCh '-' parts.dropLast)

/-- `sku_base` from tools/update_xlsx_from_csv.py: drop the trailing token,
but return the SKU unchanged when it has no hyphen. -/
def sku_base (sku : String) : String :=
  let parts := splitCh '-' sku.data
  if parts.length ≤ 1 then sku else String.mk (joinCh '-' parts.dropLast)

/-- `length_token` from tools/update_xlsx_from_csv.py, also the inline
`sku.split('-')[-1]` of tools/clean_extrusions.py: the last hyphen token. -/
def lastTok (s : String) : String := String.mk ((splitCh '-' s.data).getLastD [])

/-- Membership in `ALLOWED = {'500', '1000', '1500', '3050'}`. -/
def allowedB (t : String) : Bool :=
  t == "500" || t == "1000" || t == "1500" || t == "3050"

/-- Pad a row with empty fields up to `n` columns
(`while len(parts) < n: parts.append('')`). -/
def padTo (n : Nat) (r : Row) : Row := r ++ List.replicate (n - r.length) ""

/-! ## Row filter / normalizer pass (tools/clean_extrusions.py) -/

/-- The per-line keep test of `clean_csv` / `clean_txt`: at least 3 fields,
no TAP1/TAP2 marker in the stripped SKU, last hyphen token in `ALLOWED`. -/
def keepRow (r : Row) : Bool :=
  if r.length < 3 then false
  else if hasTapB (skuOf r) then false
  else allowedB (lastTok (skuOf r))

/-- Base profile key of a row, as the filter pass computes it. -/
def baseOfR (r : Row) : String := make_key_from_sku (skuOf r)

/-- Length token of a row, as the filter pass computes it. -/
def tokOfR (r : Row) : String := lastTok (skuOf r)

/-- `base_has_3050` lookup: some surviving row of this base has token 3050. -/
def has3050 (kept : List Row) (b : String) : Bool :=
  kept.any (fun r => baseOfR r == b && tokOfR r == "3050")

/-- Keys of a Python `dict` in insertion order: first occurrences, in order. -/
def firstDedup : List String → List String
  | [] => []
  | x :: xs => x :: (firstDedup xs).filter (fun y => !(y == x))

/-- The synthesized replacement row for a base with no 3050 row: copy of the
first surviving row, padded to 7 fields, SKU set to `base + "-3050"`, numeric
fields (indices 3-6) blanked. -/
def mk3050 (b : String) (first : Row) : Row :=
  (((((padTo 7 first).set 2 (b ++ "-3050")).set 3 "").set 4 "").set 5 "").set 6 ""

/-- The `add missing 3050 rows` loop: one synthesized row per base (in first
occurrence order) that has no surviving 3050 row. -/
def synthRows (kept : List Row) : List Row :=
  (firstDedup (kept.map baseOfR)).filterMap
    (fun b =>
      if has3050 kept b then none
      else (kept.find? (fun r => baseOfR r == b)).map (mk3050 b))

/-- Python tuple comparison `(p[1], p[2]) <= (q[1], q[2])` by code points,
the sort key of `kept.sort(key=lambda p: (p[1], p[2]))`. -/
def rowLeB (p q : Row) : Bool :=
  lexLt (field p 1).data (field q 1).data ||
    (field p 1 == field q 1 &&
      (lexLt (field p 2).data (field q 2).data || field p 2 == field q 2))

/-- Propositional form of `rowLeB`, for `List.insertionSort`. -/
def rowLe (p q : Row) : Prop := rowLeB p q = true

instance : DecidableRel rowLe := fun p q => inferInstanceAs (Decidable (rowLeB p q = true))

/-- The core of `clean_csv` / `clean_txt`: filter the rows, append the
synthesized 3050 rows, and stable-sort by (description, SKU). -/
def cleanRows (rows : List Row) : List Row :=
  let kept := rows.filter keepRow
  List.insertionSort rowLe (kept ++ synthRows kept)

/-- `clean_csv` as a transform from input lines to the rows written back:
non-blank lines are stripped and split on commas (`parse_line_csv`). -/
def clean_csv_rows (lines : List String) : List Row :=
  cleanRows (((lines.filter (fun l => !(stripC l.data).isEmpty)).map
    (fun l => (splitCh ',' (stripC l.data)).map String.mk)))

/-- `clean_txt` as a transform from input lines to the rows written back:
non-blank lines are split on tabs (unstripped). -/
def clean_txt_rows (lines : List String) : List Row :=
  cleanRows (((lines.filter (fun l => !(stripC l.data).isEmpty)).map
    (fun l => (splitCh '\t' l.data).map String.mk)))

/-! ## Price backfill pass (tools/fill_3050_prices.py) -/

/-- `is_numeric`: the field parses as a float. -/
def is_numeric (s : String) : Bool := (pyFloat s).isSome

/-- `price_map`: the last-written price of each `-1000` SKU with a numeric
price (a later row overwrites an earlier one, as in a Python dict; lookup
finds the most recently prepended binding). -/
def price_map (rows : List Row) : List (String × PyNum) :=
  rows.foldl
    (fun m r =>
      if r.length < 3 then m
      else
        let sku := pyStrip (field r 2)
        if endsWithB sku "-1000" then
          let price := if 5 < r.length then pyStrip (field r 5) else ""
          match pyFloat price with
          | some v => (sku, v) :: m
          | none => m
        else m)
    []

/-- One iteration of the backfill loop: returns the (possibly updated) row
and whether it was updated.  The scaling source key is
`sku.replace("-3050", "-1000")`, and the new price is the source price
times 3.05 (= 61/20), half-up rounded to 2 decimals. -/
def fillRow (pm : List (String × PyNum)) (r : Row) : Row × Bool :=
  if r.length < 3 then (r, false)
  else
    let sku := pyStrip (field r 2)
    if !endsWithB sku "-3050" then (r, false)
    else
      let price := if 5 < r.length then pyStrip (field r 5) else ""
      if is_numeric price then (r, false)
      else
        match List.lookup (pyReplace sku "-3050" "-1000") pm with
        | some b => ((padTo 6 r).set 5 (round2 (b.1 * 61, b.2 * 20)), true)
        | none => (r, false)

/-- The whole backfill pass: the transformed rows and the update count. -/
def fillPass (rows : List Row) : List Row × Nat :=
  let pm := price_map rows
  let res := rows.map (fillRow pm)
  (res.map (fun x => x.1), res.countP (fun x => x.2))

/-- Contents of the CSV file after the pass: rewritten only when at least
one row was updated (`if updated > 0`). -/
def storedAfterFill (rows : List Row) : List Row :=
  if 0 < (fillPass rows).2 then (fillPass rows).1 else rows

/-! ## Spreadsheet sync pass (tools/update_xlsx_from_csv.py) -/

/-- `to_float`: Python `float(r[i])` with failure as `none`. -/
def to_float (s : String) : Option PyNum := pyFloat s

/-- One iteration of the first rate loop: a `-1000` row contributes
`price/1000` and `cost/1000` per-mm rates for its base (overwriting, via
prepending, any earlier binding).  The unused `first_row_for_base`
bookkeeping of the source is dropped. -/
def rateStep1 (acc : List (String × PyNum) × List (String × PyNum)) (r : Row) :
    List (String × PyNum) × List (String × PyNum) :=
  if r.length < 3 then acc
  else
    let sku := pyStrip (field r 2)
    let base := sku_base sku
    let token := lastTok sku
    if token == "1000" then
      let price := if 5 < r.length then to_float (field r 5) else none
      let cost := if 6 < r.length then to_float (field r 6) else none
      (match price with | some p => (base, (p.1, p.2 * 1000)) :: acc.1 | none => acc.1,
       match cost with | some c => (base, (c.1, c.2 * 1000)) :: acc.2 | none => acc.2)
    else acc

/-- One iteration of the fallback loop: a base is skipped outright when it
already has a price rate; otherwise a `-1500` row contributes `price/1500`
and `cost/1500` rates. -/
def rateStep2 (acc : List (String × PyNum) × List (String × PyNum)) (r : Row) :
    List (String × PyNum) × List (String × PyNum) :=
  if r.length < 3 then acc
  else
    let sku := pyStrip (field r 2)
    let base := sku_base sku
    let token := lastTok sku
    if (List.lookup base acc.1).isSome then acc
    else if token == "1500" then
      let price := if 5 < r.length then to_float (field r 5) else none
      let cost := if 6 < r.length then to_float (field r 6) else none
      (match price with | some p => (base, (p.1, p.2 * 1500)) :: acc.1 | none => acc.1,
       match cost with | some c => (base, (c.1, c.2 * 1500)) :: acc.2 | none => acc.2)
    else acc

/-- Per-mm price and cost maps after the first (`-1000`) loop. -/
def ratesAfter1 (rows : List Row) : List (String × PyNum) × List (String × PyNum) :=
  rows.foldl rateStep1 ([], [])

/-- Per-mm price and cost maps after the `-1500` fallback loop. -/
def ratesFinal (rows : List Row) : List (String × PyNum) × List (String × PyNum) :=
  rows.foldl rateStep2 (ratesAfter1 rows)

/-- The fill loop body: pad the row to 7 fields; on a 3050 row, fill a
missing price (resp. cost) from `rate * 3050`, rounded with Python
`round(x, 2)` and rendered as `f"{x:.2f}"`. -/
def updFill (pm cm : List (String × PyNum)) (r : Row) : Row :=
  let r7 := padTo 7 r
  let sku := pyStrip (field r7 2)
  let token := if sku == "" then "" else lastTok sku
  let base := if sku == "" then "" else sku_base sku
  if token == "3050" then
    let price := to_float (field r7 5)
    let cost := to_float (field r7 6)
    let r5 :=
      match price, List.lookup base pm with
      | none, some ppm => r7.set 5 (fmtCents (roundHalfEvenCents (ppm.1 * 3050, ppm.2)))
      | _, _ => r7
    match cost, List.lookup base cm with
    | none, some cpm => r5.set 6 (fmtCents (roundHalfEvenCents (cpm.1 * 3050, cpm.2)))
    | _, _ => r5
  else r7

/-- The rows the sync pass appends to the spreadsheet artifact, in input
order. -/
def updateRows (rows : List Row) : List Row :=
  rows.map (updFill (ratesFinal rows).1 (ratesFinal rows).2)

/-! ## Order facts about the sort key -/

theorem strDataInj {a b : String} (h : a.data = b.data) : a = b := by
  cases a
  cases b
  exact congrArg String.mk h

theorem lexLt_trans : ∀ {a b c : List Char},
    lexLt a b = true → lexLt b c = true → lexLt a c = true := by
  intro a
  induction a with
  | nil =>
    intro b c hab hbc
    cases b with
    | nil => simp [lexLt] at hab
    | cons y ys =>
      cases c with
      | nil => simp [lexLt] at hbc
      | cons z zs => simp [lexLt]
  | cons x xs ih =>
    intro b c hab hbc
    cases b with
    | nil => simp [lexLt] at hab
    | cons y ys =>
      cases c with
      | nil => simp [lexLt] at hbc
      | cons z zs =>
        simp only [lexLt] at hab hbc ⊢
        by_cases hxy : x < y
        · by_cases hyz : y < z
          · simp [lt_trans hxy hyz]
          · by_cases hzy : z < y
            · rw [if_neg hyz, if_pos hzy] at hbc
              exact absurd hbc (by simp)
            · have : y = z := le_antisymm (not_lt.mp hzy) (not_lt.mp hyz)
              subst this
              simp [hxy]
        · by_cases hyx : y < x
          · simp [hxy, hyx] at hab
          · have hxey : x = y := le_antisymm (not_lt.mp hyx) (not_lt.mp hxy)
            subst hxey
            simp only [if_neg hxy, if_neg hyx] at hab
            by_cases hyz : x < z
            · simp [hyz]
            · by_cases hzy : z < x
              · simp [hyz, hzy] at hbc
              · have : x = z := le_antisymm (not_lt.mp hzy) (not_lt.mp hyz)
                subst this
                simp only [if_neg hyz, if_neg hzy] at hbc ⊢
                exact ih hab hbc

theorem lexLt_connex : ∀ {a b : List Char},
    lexLt a b = false → lexLt b a = false → a = b := by
  intro a
  induction a with
  | nil =>
    intro b hab _
    cases b with
    | nil => rfl
    | cons y ys => simp [lexLt] at hab
  | cons x xs ih =>
    intro b hab hba
    cases b with
    | nil => simp [lexLt] at hba
    | cons y ys =>
      simp only [lexLt] at hab hba
      by_cases hxy : x < y
      · simp [hxy] at hab
      · by_cases hyx : y < x
        · simp [hxy, hyx] at hab
          simp [hyx] at hba
        · have hxey : x = y := le_antisymm (not_lt.mp hyx) (not_lt.mp hxy)
          subst hxey
          simp only [if_neg hxy] at hab hba
          exact congrArg (x :: ·) (ih hab hba)

instance : IsTrans Row rowLe := by
  constructor
  intro p q r hpq hqr
  simp only [rowLe, rowLeB, Bool.or_eq_true, Bool.and_eq_true, beq_iff_eq] at hpq hqr ⊢
  rcases hpq with h1 | ⟨h1, h2⟩
  · rcases hqr with g1 | ⟨g1, _⟩
    · exact Or.inl (lexLt_trans h1 g1)
    · rw [g1] at h1
      exact Or.inl h1
  · rcases hqr with g1 | ⟨g1, g2⟩
    · rw [← h1] at g1
      exact Or.inl g1
    · refine Or.inr ⟨h1.trans g1, ?_⟩
      rcases h2 with h2 | h2
      · rcases g2 with g2 | g2
        · exact Or.inl (lexLt_trans h2 g2)
        · rw [g2] at h2
          exact Or.inl h2
      · rcases g2 with g2 | g2
        · rw [h2]
          exact Or.inl g2
        · exact Or.inr (h2.trans g2)

instance : IsTotal Row rowLe := by
  constructor
  intro p q
  simp only [rowLe, rowLeB, Bool.or_eq_true, Bool.and_eq_true, beq_iff_eq]
  by_cases h1 : lexLt (field p 1).data (field q 1).data = true
  · exact Or.inl (Or.inl h1)
  · by_cases h2 : lexLt (field q 1).data (field p 1).data = true
    · exact Or.inr (Or.inl h2)
    · have e1 : field p 1 = field q 1 :=
        strDataInj (lexLt_connex (Bool.not_eq_true _ ▸ h1) (Bool.not_eq_true _ ▸ h2))
      by_cases h3 : lexLt (field p 2).data (field q 2).data = true
      · exact Or.inl (Or.inr ⟨e1, Or.inl h3⟩)
      · by_cases h4 : lexLt (field q 2).data (field p 2).data = true
        · exact Or.inr (Or.inr ⟨e1.symm, Or.inl h4⟩)
        · have e2 : field p 2 = field q 2 :=
            strDataInj (lexLt_connex (Bool.not_eq_true _ ▸ h3) (Bool.not_eq_true _ ▸ h4))
          exact Or.inl (Or.inr ⟨e1, Or.inr e2⟩)

/-! ## Basic shape lemmas -/

theorem padTo_length_ge (n : Nat) (r : Row) : n ≤ (padTo n r).length := by
  unfold padTo
  rw [List.length_append, List.length_replicate]
  rcases Nat.le_total r.length n with h | h
  · rw [Nat.add_sub_cancel' h]
  · calc n ≤ r.length := h
      _ ≤ r.length + (n - r.length) := Nat.le_add_right _ _

theorem mk3050_length_ge (b : String) (f : Row) : 7 ≤ (mk3050 b f).length := by
  unfold mk3050
  simp only [List.length_set]
  exact padTo_length_ge 7 f

theorem keepRow_length {r : Row} (h : keepRow r = true) : 3 ≤ r.length := by
  unfold keepRow at h
  by_cases hl : r.length < 3
  · rw [if_pos hl] at h
    exact absurd h (by simp)
  · exact Nat.le_of_not_lt hl

theorem mem_cleanRows {r : Row} {rows : List Row} :
    r ∈ cleanRows rows ↔
      r ∈ rows.filter keepRow ∨ r ∈ synthRows (rows.filter keepRow) := by
  unfold cleanRows
  rw [(List.perm_insertionSort rowLe _).mem_iff, List.mem_append]

theorem mem_synthRows {r : Row} {kept : List Row} (h : r ∈ synthRows kept) :
    ∃ b fr, b ∈ firstDedup (kept.map baseOfR) ∧ has3050 kept b = false ∧
      kept.find? (fun x => baseOfR x == b) = some fr ∧ r = mk3050 b fr := by
  unfold synthRows at h
  rcases List.mem_filterMap.mp h with ⟨b, hb, hfb⟩
  by_cases h30 : has3050 kept b = true
  · rw [if_pos h30] at hfb
    cases hfb
  · rw [if_neg h30] at hfb
    rcases Option.map_eq_some'.mp hfb with ⟨fr, hfr, hr⟩
    exact ⟨b, fr, hb, Bool.not_eq_true _ ▸ h30, hfr, hr.symm⟩

theorem cleanRows_length {r : Row} {rows : List Row} (h : r ∈ cleanRows rows) :
    3 ≤ r.length := by
  rcases mem_cleanRows.mp h with h | h
  · exact keepRow_length (List.mem_filter.mp h).2
  · rcases mem_synthRows h with ⟨b, fr, _, _, _, hr⟩
    rw [hr]
    calc 3 ≤ 7 := by norm_num
      _ ≤ (mk3050 b fr).length := mk3050_length_ge b fr

theorem updFill_length (pm cm : List (String × PyNum)) (r : Row) :
    7 ≤ (updFill pm cm r).length := by
  unfold updFill
  dsimp only
  repeat' split
  all_goals
    first
      | exact padTo_length_ge 7 r
      | (simp only [List.length_set]; exact padTo_length_ge 7 r)

/-! ## Claim C2 -/

/-- C2: rows with fewer than 3 fields never appear in the output of the
filter pass (comma- or tab-delimited) nor among the rows the sync pass
writes to the spreadsheet artifact: every output row has at least 3
fields. -/
theorem c2_no_short_rows :
    (∀ (lines : List String) (r : Row), r ∈ clean_csv_rows lines → 3 ≤ r.length) ∧
    (∀ (lines : List String) (r : Row), r ∈ clean_txt_rows lines → 3 ≤ r.length) ∧
    (∀ (rows : List Row) (r : Row), r ∈ updateRows rows → 3 ≤ r.length) := by
  refine ⟨fun lines r h => cleanRows_length h, fun lines r h => cleanRows_length h,
    fun rows r h => ?_⟩
  rcases List.mem_map.mp h with ⟨x, _, hx⟩
  rw [← hx]
  calc 3 ≤ 7 := by norm_num
    _ ≤ (updFill _ _ x).length := updFill_length _ _ x

/-- Witness for C2 at a concrete input of each of the three passes. -/
theorem c2_no_short_rows_witness :
    3 ≤ (["1", "d", "A-1000"] : Row).length ∧
    3 ≤ (["1", "d", "B-3050", "", "", "", ""] : Row).length ∧
    3 ≤ (["1", "d", "C-3050", "", "", "366.00", ""] : Row).length :=
  ⟨c2_no_short_rows.1 ["1,d,A-1000"] ["1", "d", "A-1000"] (by decide),
   c2_no_short_rows.2.1 ["1\td\tB-3050\t\t\t\t"] ["1", "d", "B-3050", "", "", "", ""]
     (by decide),
   c2_no_short_rows.2.2
     [["1", "d", "C-1000", "", "", "120", ""], ["1", "d", "C-3050", "", "", "", ""]]
     ["1", "d", "C-3050", "", "", "366.00", ""] (by decide)⟩

/-! ## Claim C9 -/

/-- C9: the rows output by the filter pass are sorted non-decreasingly by the
pair (description field, SKU field) under lexicographic code-point
comparison, in the comma-delimited and tab-delimited pass alike. -/
theorem c9_output_sorted (lines : List String) :
    List.Sorted rowLe (clean_csv_rows lines) ∧
    List.Sorted rowLe (clean_txt_rows lines) :=
  ⟨List.sorted_insertionSort rowLe _, List.sorted_insertionSort rowLe _⟩

/-! ## Structural lemmas about split and join -/

theorem mk_data (s : String) : String.mk s.data = s := by
  cases s
  rfl

theorem splitCh_ne_nil (sep : Char) : ∀ l : List Char, splitCh sep l ≠ []
  | [] => by simp [splitCh]
  | c :: rest => by
    unfold splitCh
    cases h : splitCh sep rest with
    | nil => simp
    | cons t ts => by_cases hc : c = sep <;> simp [hc]

theorem joinCh_splitCh (sep : Char) : ∀ l : List Char, joinCh sep (splitCh sep l) = l
  | [] => rfl
  | c :: rest => by
    have ih := joinCh_splitCh sep rest
    unfold splitCh
    cases h : splitCh sep rest with
    | nil => exact absurd h (splitCh_ne_nil sep rest)
    | cons t ts =>
      rw [h] at ih
      by_cases hc : c = sep
      · subst hc
        cases ts <;> simp_all [joinCh]
      · cases ts <;> simp_all [joinCh]

theorem splitCh_of_not_mem {sep : Char} : ∀ {l : List Char}, sep ∉ l → splitCh sep l = [l]
  | [], _ => rfl
  | c :: rest, h => by
    have hc : ¬c = sep := fun e => h (e ▸ List.mem_cons_self c rest)
    have hr : sep ∉ rest := fun e => h (List.mem_cons_of_mem c e)
    unfold splitCh
    rw [splitCh_of_not_mem hr]
    simp [hc]

theorem splitCh_append_sep {sep : Char} {c : List Char} (hc : sep ∉ c) :
    ∀ a : List Char, splitCh sep (a ++ sep :: c) = splitCh sep a ++ [c]
  | [] => by
    show splitCh sep (sep :: c) = [[]] ++ [c]
    unfold splitCh
    rw [splitCh_of_not_mem hc]
    simp
  | x :: a' => by
    have ih := splitCh_append_sep hc a'
    show splitCh sep (x :: (a' ++ sep :: c)) = splitCh sep (x :: a') ++ [c]
    unfold splitCh
    rw [ih]
    cases h : splitCh sep a' with
    | nil => exact absurd h (splitCh_ne_nil sep a')
    | cons t ts => by_cases hx : x = sep <;> simp [hx]

theorem splitCh_length (sep : Char) : ∀ l : List Char,
    (splitCh sep l).length = l.count sep + 1
  | [] => rfl
  | c :: rest => by
    have ih := splitCh_length sep rest
    unfold splitCh
    cases h : splitCh sep rest with
    | nil => exact absurd h (splitCh_ne_nil sep rest)
    | cons t ts =>
      rw [h] at ih
      by_cases hc : c = sep
      · subst hc
        simp_all [List.count_cons]
      · have : (c == sep) = false := by simp [hc]
        simp_all [List.count_cons]

theorem joinCh_concat (sep : Char) (y : List Char) : ∀ xs : List (List Char), xs ≠ [] →
    joinCh sep (xs ++ [y]) = joinCh sep xs ++ sep :: y
  | [], h => absurd rfl h
  | [t], _ => by simp [joinCh]
  | t :: s :: ss, _ => by
    have ih := joinCh_concat sep y (s :: ss) (by simp)
    show joinCh sep (t :: (s :: ss ++ [y])) = joinCh sep (t :: s :: ss) ++ sep :: y
    calc joinCh sep (t :: (s :: ss ++ [y]))
        = t ++ sep :: joinCh sep (s :: ss ++ [y]) := rfl
      _ = t ++ sep :: (joinCh sep (s :: ss) ++ sep :: y) := by rw [ih]
      _ = joinCh sep (t :: s :: ss) ++ sep :: y := by simp [joinCh]

/-- `make_key_from_sku` without the vacuous conditional of the source. -/
theorem make_key_eq (s : String) :
    make_key_from_sku s = String.mk (joinCh '-' (splitCh '-' s.data).dropLast) := by
  simp only [make_key_from_sku, ite_self]

theorem data_append_3050 (b : String) :
    (b ++ "-3050").data = b.data ++ '-' :: "3050".data := by
  rw [String.data_append]

theorem hyphen_not_mem_3050 : '-' ∉ "3050".data := by decide

theorem splitCh_append_3050 (b : String) :
    splitCh '-' (b ++ "-3050").data = splitCh '-' b.data ++ ["3050".data] := by
  rw [data_append_3050]
  exact splitCh_append_sep hyphen_not_mem_3050 b.data

theorem make_key_append_3050 (b : String) : make_key_from_sku (b ++ "-3050") = b := by
  rw [make_key_eq, splitCh_append_3050, List.dropLast_concat, joinCh_splitCh, mk_data]

theorem lastTok_append_3050 (b : String) : lastTok (b ++ "-3050") = "3050" := by
  unfold lastTok
  rw [splitCh_append_3050, List.getLastD_concat]

/-! ## Structural lemmas about stripping -/

theorem dropWhile_head_false {p : Char → Bool} :
    ∀ {l t : List Char} {c : Char}, l.dropWhile p = c :: t → p c = false := by
  intro l
  induction l with
  | nil => intro t c h; cases h
  | cons x xs ih =>
    intro t c h
    rw [List.dropWhile_cons] at h
    by_cases hp : p x = true
    · exact ih (by rwa [if_pos hp] at h)
    · rw [if_neg hp] at h
      cases h
      exact Bool.not_eq_true _ ▸ hp

theorem dropWhile_suffix (p : Char → Bool) : ∀ l : List Char, l.dropWhile p <:+ l := by
  intro l
  induction l with
  | nil => exact List.suffix_refl _
  | cons x xs ih =>
    rw [List.dropWhile_cons]
    by_cases hp : p x = true
    · rw [if_pos hp]
      exact ih.trans (List.suffix_cons x xs)
    · rw [if_neg hp]

theorem stripC_head_not_ws {l t : List Char} {c : Char} (h : stripC l = c :: t) :
    c.isWhitespace = false := by
  unfold stripC at h
  rcases dropWhile_suffix Char.isWhitespace (l.dropWhile Char.isWhitespace).reverse
    with ⟨pre, hpre⟩
  have hm : l.dropWhile Char.isWhitespace =
      ((l.dropWhile Char.isWhitespace).reverse.dropWhile Char.isWhitespace).reverse
        ++ pre.reverse := by
    have := congrArg List.reverse hpre
    simpa using this.symm
  rw [h] at hm
  exact dropWhile_head_false hm

theorem stripC_last_not_ws {l t : List Char} {c : Char} (h : stripC l = t ++ [c]) :
    c.isWhitespace = false := by
  unfold stripC at h
  have h2 : (l.dropWhile Char.isWhitespace).reverse.dropWhile Char.isWhitespace =
      c :: t.reverse := by
    have := congrArg List.reverse h
    simpa using this
  exact dropWhile_head_false h2

theorem stripC_eq_self {l : List Char}
    (h1 : ∀ c, l.head? = some c → c.isWhitespace = false)
    (h2 : ∀ c, l.getLast? = some c → c.isWhitespace = false) :
    stripC l = l := by
  cases hl : l with
  | nil => rfl
  | cons x xs =>
    have hx : x.isWhitespace = false := h1 x (by rw [hl]; rfl)
    have step1 : l.dropWhile Char.isWhitespace = l := by
      rw [hl, List.dropWhile_cons, hx]
      simp
    unfold stripC
    rw [← hl, step1]
    cases hr : l.reverse with
    | nil => simp [hl] at hr
    | cons y ys =>
      have hy : y.isWhitespace = false := by
        apply h2
        rw [← List.head?_reverse, hr]
        rfl
      rw [List.dropWhile_cons, hy]
      rw [if_neg (by simp)]
      rw [← hr, List.reverse_reverse]

theorem pyStrip_eq_self {s : String} (h : stripC s.data = s.data) : pyStrip s = s := by
  unfold pyStrip
  rw [h, mk_data]

/-! ## Structural lemmas about substring occurrence -/

theorem occursB_eq_true_iff {pat : List Char} :
    ∀ {s : List Char}, occursB pat s = true ↔ ∃ u v, s = u ++ pat ++ v := by
  intro s
  induction s with
  | nil =>
    simp only [occursB, List.isEmpty_iff]
    constructor
    · intro h
      exact ⟨[], [], by simp [h]⟩
    · rintro ⟨u, v, huv⟩
      rcases List.append_eq_nil.mp (List.append_eq_nil.mp huv.symm).1 with ⟨_, h2⟩
      exact h2
  | cons c rest ih =>
    simp only [occursB, Bool.or_eq_true]
    constructor
    · rintro (h | h)
      · rcases List.isPrefixOf_iff_prefix.mp h with ⟨t, ht⟩
        exact ⟨[], t, by simp [ht.symm]⟩
      · rcases ih.mp h with ⟨u, v, huv⟩
        exact ⟨c :: u, v, by simp [huv]⟩
    · rintro ⟨u, v, huv⟩
      cases u with
      | nil =>
        refine Or.inl (List.isPrefixOf_iff_prefix.mpr ⟨v, ?_⟩)
        simpa using huv.symm
      | cons x u' =>
        have h2 : c = x ∧ rest = u' ++ (pat ++ v) := by simpa using huv
        exact Or.inr (ih.mpr ⟨u', v, by simpa using h2.2⟩)

theorem prefix_through_sep {pat d c : List Char} {sep : Char} (hsep : sep ∉ pat)
    (h : pat <+: d ++ sep :: c) : pat <+: d := by
  rcases Nat.lt_or_ge d.length pat.length with hlt | hle
  · exfalso
    rcases h with ⟨t, ht⟩
    have h1 : pat = (d ++ sep :: c).take pat.length := by
      rw [← ht, List.take_left]
    obtain ⟨k, hk⟩ : ∃ k, pat.length = d.length + (k + 1) :=
      ⟨pat.length - d.length - 1, by omega⟩
    rw [hk, List.take_append] at h1
    rw [show (sep :: c).take (k + 1) = sep :: c.take k from rfl] at h1
    exact hsep (h1 ▸ List.mem_append.mpr (Or.inr (List.mem_cons_self _ _)))
  · have h1 : pat = (d ++ sep :: c).take pat.length := by
      rcases h with ⟨t, ht⟩
      rw [← ht, List.take_left]
    rw [List.take_append_of_le_length hle] at h1
    exact h1 ▸ List.take_prefix pat.length d

theorem occursB_false_of_prefix {pat d s : List Char} (hp : d <+: s)
    (h : occursB pat s = false) : occursB pat d = false := by
  by_contra hc
  rcases occursB_eq_true_iff.mp (Bool.not_eq_false _ ▸ hc) with ⟨u, v, huv⟩
  rcases hp with ⟨t, ht⟩
  have : occursB pat s = true :=
    occursB_eq_true_iff.mpr ⟨u, v ++ t, by rw [← ht, huv]; simp⟩
  rw [this] at h
  cases h

theorem occursB_false_append_sep {pat : List Char} {sep : Char} (hne : pat ≠ [])
    (hsep : sep ∉ pat) :
    ∀ {a c : List Char}, occursB pat a = false → occursB pat c = false →
      occursB pat (a ++ sep :: c) = false := by
  intro a
  induction a with
  | nil =>
    intro c _ hc
    show (pat.isPrefixOf (sep :: c) || occursB pat c) = false
    rw [hc]
    rcases List.exists_cons_of_ne_nil hne with ⟨p, pt, hpat⟩
    subst hpat
    by_cases hpre : (p :: pt).isPrefixOf (sep :: c) = true
    · rcases List.isPrefixOf_iff_prefix.mp hpre with ⟨t, ht⟩
      have : p = sep := by
        have := congrArg List.head? ht
        simpa using this
      exact absurd (this ▸ List.mem_cons_self p pt) hsep
    · simp [Bool.not_eq_true _ ▸ hpre]
  | cons x a' ih =>
    intro c ha hc
    have hcomp : (pat.isPrefixOf (x :: a') || occursB pat a') = false := ha
    rcases Bool.or_eq_false_iff.mp hcomp with ⟨hpre, ha'⟩
    show (pat.isPrefixOf (x :: (a' ++ sep :: c)) || occursB pat (a' ++ sep :: c)) = false
    rw [ih ha' hc, Bool.or_false]
    by_cases hpre2 : pat.isPrefixOf (x :: (a' ++ sep :: c)) = true
    · exfalso
      have : pat <+: (x :: a') ++ sep :: c := by
        simpa using List.isPrefixOf_iff_prefix.mp hpre2
      have := List.isPrefixOf_iff_prefix.mpr (prefix_through_sep hsep this)
      rw [this] at hpre
      cases hpre
    · exact Bool.not_eq_true _ ▸ hpre2

/-! ## The synthesized 3050 row -/

/-- The base key of any SKU is empty or is followed in the SKU by a hyphen
and the final token. -/
theorem make_key_structure (s : String) :
    (make_key_from_sku s).data = [] ∨
      ∃ t : List Char, (make_key_from_sku s).data ++ '-' :: t = s.data := by
  rw [make_key_eq]
  cases hdl : (splitCh '-' s.data).dropLast with
  | nil => exact Or.inl rfl
  | cons p ps =>
    refine Or.inr ⟨(splitCh '-' s.data).getLast (splitCh_ne_nil '-' s.data), ?_⟩
    have hcc := joinCh_concat '-' ((splitCh '-' s.data).getLast (splitCh_ne_nil '-' s.data))
      (splitCh '-' s.data).dropLast (by rw [hdl]; simp)
    rw [List.dropLast_append_getLast (splitCh_ne_nil '-' s.data)] at hcc
    rw [joinCh_splitCh '-' s.data] at hcc
    rw [hdl] at hcc
    exact hcc.symm

theorem keepRow_props {r : Row} (h : keepRow r = true) :
    3 ≤ r.length ∧ hasTapB (skuOf r) = false ∧ allowedB (lastTok (skuOf r)) = true := by
  unfold keepRow at h
  by_cases h1 : r.length < 3
  · rw [if_pos h1] at h
    cases h
  · rw [if_neg h1] at h
    by_cases h2 : hasTapB (skuOf r) = true
    · rw [if_pos h2] at h
      cases h
    · rw [if_neg h2] at h
      exact ⟨Nat.le_of_not_lt h1, Bool.not_eq_true _ ▸ h2, h⟩

/-- Appending `-3050` to the base key of a stripped SKU yields a string with
no surrounding whitespace, so `strip` leaves it unchanged. -/
theorem strip_base_3050 (x : String) :
    pyStrip (make_key_from_sku (pyStrip x) ++ "-3050")
      = make_key_from_sku (pyStrip x) ++ "-3050" := by
  apply pyStrip_eq_self
  apply stripC_eq_self
  · intro c hc
    rw [data_append_3050] at hc
    cases hbd : (make_key_from_sku (pyStrip x)).data with
    | nil =>
      rw [hbd] at hc
      simp only [List.nil_append, List.head?_cons, Option.some.injEq] at hc
      rw [← hc]
      decide
    | cons c0 cs =>
      rw [hbd] at hc
      have hcc0 : c = c0 := by
        simp only [List.cons_append, List.head?_cons, Option.some.injEq] at hc
        exact hc.symm
      rw [hcc0]
      rcases make_key_structure (pyStrip x) with hb | ⟨t, hbt⟩
      · rw [hbd] at hb
        cases hb
      · rw [hbd] at hbt
        have hx : stripC x.data = c0 :: (cs ++ '-' :: t) := by
          have hps : (pyStrip x).data = stripC x.data := rfl
          rw [← hps, ← hbt]
          simp
        exact stripC_head_not_ws hx
  · intro c hc
    rw [data_append_3050] at hc
    rw [List.getLast?_append] at hc
    have : ('-' :: "3050".data).getLast? = some '0' := by decide
    rw [this] at hc
    simp only [Option.or_some, Option.some.injEq] at hc
    rw [← hc]
    decide

/-- The synthesized SKU contains no TAP marker when the originating stripped
SKU contained none. -/
theorem hasTap_base_3050 {x : String} (h : hasTapB (pyStrip x) = false) :
    hasTapB (make_key_from_sku (pyStrip x) ++ "-3050") = false := by
  unfold hasTapB at h ⊢
  rcases Bool.or_eq_false_iff.mp h with ⟨h1, h2⟩
  rw [data_append_3050]
  have step : ∀ pat : List Char, pat ≠ [] → '-' ∉ pat →
      occursB pat "3050".data = false →
      occursB pat (pyStrip x).data = false →
      occursB pat ((make_key_from_sku (pyStrip x)).data ++ '-' :: "3050".data) = false := by
    intro pat hne hsep h3050 hs
    have hbase : occursB pat (make_key_from_sku (pyStrip x)).data = false := by
      rcases make_key_structure (pyStrip x) with hb | ⟨t, hbt⟩
      · rw [hb]
        cases pat with
        | nil => exact absurd rfl hne
        | cons p pt => rfl
      · exact occursB_false_of_prefix ⟨'-' :: t, hbt⟩ hs
    exact occursB_false_append_sep hne hsep hbase h3050
  rw [step "TAP1".data (by decide) (by decide) (by decide) h1,
    step "TAP2".data (by decide) (by decide) (by decide) h2]
  rfl

theorem field_mk3050_2 (b : String) (f : Row) : field (mk3050 b f) 2 = b ++ "-3050" := by
  unfold mk3050 field
  have hlen : 2 < ((padTo 7 f).set 2 (b ++ "-3050")).length := by
    rw [List.length_set]
    calc 2 < 7 := by norm_num
      _ ≤ (padTo 7 f).length := padTo_length_ge 7 f
  rw [List.getD_eq_getElem?_getD,
    List.getElem?_set_ne (by norm_num : (6 : Nat) ≠ 2),
    List.getElem?_set_ne (by norm_num : (5 : Nat) ≠ 2),
    List.getElem?_set_ne (by norm_num : (4 : Nat) ≠ 2),
    List.getElem?_set_ne (by norm_num : (3 : Nat) ≠ 2),
    List.getElem?_set_eq (by rw [List.length_set] at hlen; exact hlen)]
  rfl

theorem skuOf_mk3050 (x : String) (f : Row) :
    skuOf (mk3050 (make_key_from_sku (pyStrip x)) f)
      = make_key_from_sku (pyStrip x) ++ "-3050" := by
  unfold skuOf
  rw [field_mk3050_2]
  exact strip_base_3050 x

theorem baseOfR_mk3050 (x : String) (f : Row) :
    baseOfR (mk3050 (make_key_from_sku (pyStrip x)) f) = make_key_from_sku (pyStrip x) := by
  unfold baseOfR
  rw [skuOf_mk3050, make_key_append_3050]

theorem tokOfR_mk3050 (x : String) (f : Row) :
    tokOfR (mk3050 (make_key_from_sku (pyStrip x)) f) = "3050" := by
  unfold tokOfR
  rw [skuOf_mk3050, lastTok_append_3050]

theorem keepRow_mk3050 {x : String} (h : hasTapB (pyStrip x) = false) (f : Row) :
    keepRow (mk3050 (make_key_from_sku (pyStrip x)) f) = true := by
  unfold keepRow
  rw [if_neg (Nat.not_lt.mpr (le_trans (by norm_num) (mk3050_length_ge _ f)))]
  rw [if_neg (by rw [skuOf_mk3050, hasTap_base_3050 h]; simp)]
  rw [show skuOf (mk3050 (make_key_from_sku (pyStrip x)) f)
        = make_key_from_sku (pyStrip x) ++ "-3050" from skuOf_mk3050 x f,
    lastTok_append_3050]
  rfl

/-! ## First-occurrence deduplication (Python dict key order) -/

theorem mem_firstDedup {b : String} : ∀ {l : List String}, b ∈ firstDedup l ↔ b ∈ l := by
  intro l
  induction l with
  | nil => simp [firstDedup]
  | cons x xs ih =>
    unfold firstDedup
    by_cases hbx : b = x
    · subst hbx
      simp
    · simp only [List.mem_cons, hbx, false_or]
      rw [List.mem_filter]
      simp only [Bool.not_eq_true', beq_eq_false_iff_ne, ne_eq, hbx, not_false_eq_true,
        and_true]
      exact ih

theorem nodup_firstDedup : ∀ l : List String, (firstDedup l).Nodup := by
  intro l
  induction l with
  | nil => exact List.nodup_nil
  | cons x xs ih =>
    unfold firstDedup
    refine List.Nodup.cons ?_ (List.Nodup.filter _ ih)
    intro hmem
    have := (List.mem_filter.mp hmem).2
    simp at this

/-! ## Every base of the filtered output has a 3050 row -/

theorem find?_base_some {kept : List Row} {b : String}
    (h : ∃ r ∈ kept, baseOfR r = b) :
    ∃ fr, kept.find? (fun r => baseOfR r == b) = some fr := by
  apply Option.isSome_iff_exists.mp
  apply List.find?_isSome.mpr
  rcases h with ⟨r, hr, hb⟩
  exact ⟨r, hr, by simp [hb]⟩

theorem base_of_kept {rows : List Row} {b : String}
    (h : ∃ r ∈ rows.filter keepRow, baseOfR r = b) :
    ∃ r ∈ cleanRows rows, baseOfR r = b ∧ tokOfR r = "3050" := by
  rcases h with ⟨r1, hr1, hb1⟩
  by_cases h30 : has3050 (rows.filter keepRow) b = true
  · rcases List.any_eq_true.mp h30 with ⟨r2, hr2, hprop⟩
    have hprop2 : baseOfR r2 = b ∧ tokOfR r2 = "3050" := by simpa using hprop
    exact ⟨r2, mem_cleanRows.mpr (Or.inl hr2), hprop2.1, hprop2.2⟩
  · have h30f : has3050 (rows.filter keepRow) b = false := Bool.not_eq_true _ ▸ h30
    have hbmem : b ∈ firstDedup ((rows.filter keepRow).map baseOfR) :=
      mem_firstDedup.mpr (List.mem_map.mpr ⟨r1, hr1, hb1⟩)
    rcases find?_base_some ⟨r1, hr1, hb1⟩ with ⟨fr, hfr⟩
    have hsmem : mk3050 b fr ∈ synthRows (rows.filter keepRow) := by
      unfold synthRows
      apply List.mem_filterMap.mpr
      exact ⟨b, hbmem, by rw [if_neg h30, hfr]; rfl⟩
    have hb0x : b = make_key_from_sku (pyStrip (field r1 2)) := by
      rw [← hb1]
      rfl
    refine ⟨mk3050 b fr, mem_cleanRows.mpr (Or.inr hsmem), ?_, ?_⟩
    · rw [hb0x]
      exact baseOfR_mk3050 (field r1 2) fr
    · rw [hb0x]
      exact tokOfR_mk3050 (field r1 2) fr

theorem has3050_cleanRows {rows : List Row} {b : String}
    (hb : b ∈ (cleanRows rows).map baseOfR) :
    ∃ r ∈ cleanRows rows, baseOfR r = b ∧ tokOfR r = "3050" := by
  rcases List.mem_map.mp hb with ⟨r0, hr0, hb0⟩
  rcases mem_cleanRows.mp hr0 with hk | hs
  · exact base_of_kept ⟨r0, hk, hb0⟩
  · rcases mem_synthRows hs with ⟨b1, fr, hb1mem, _, _, hr0eq⟩
    rcases List.mem_map.mp (mem_firstDedup.mp hb1mem) with ⟨r2, hr2, hb2⟩
    have hb1x : b1 = make_key_from_sku (pyStrip (field r2 2)) := by
      rw [← hb2]
      rfl
    have hbase : baseOfR r0 = b1 := by
      rw [hr0eq, hb1x]
      exact baseOfR_mk3050 _ _
    rw [← hb0, hbase]
    exact base_of_kept ⟨r2, hr2, hb2⟩

/-! ## Claim C5 -/

/-- C5: the filter pass is idempotent.  Applying the row filter/normalizer
transform to its own output (either the core row transform or the full
comma- and tab-delimited passes) yields the same output: no row is dropped, no
further 3050 row is synthesized, and the sort order is unchanged. -/
theorem c5_filter_idempotent (rows : List Row) (lines : List String) :
    cleanRows (cleanRows rows) = cleanRows rows ∧
    cleanRows (clean_csv_rows lines) = clean_csv_rows lines ∧
    cleanRows (clean_txt_rows lines) = clean_txt_rows lines := by
  have main : ∀ rs : List Row, cleanRows (cleanRows rs) = cleanRows rs := by
    intro rs
    have hall : ∀ r ∈ cleanRows rs, keepRow r = true := by
      intro r hr
      rcases mem_cleanRows.mp hr with hk | hs
      · exact (List.mem_filter.mp hk).2
      · rcases mem_synthRows hs with ⟨b, fr, hbmem, _, _, hre⟩
        rcases List.mem_map.mp (mem_firstDedup.mp hbmem) with ⟨r2, hr2, hb2⟩
        have hbx : b = make_key_from_sku (pyStrip (field r2 2)) := by
          rw [← hb2]
          rfl
        have htap : hasTapB (pyStrip (field r2 2)) = false :=
          (keepRow_props (List.mem_filter.mp hr2).2).2.1
        rw [hre, hbx]
        exact keepRow_mk3050 htap fr
    have hfilter : (cleanRows rs).filter keepRow = cleanRows rs :=
      List.filter_eq_self.mpr hall
    have hsynth : synthRows (cleanRows rs) = [] := by
      unfold synthRows
      apply List.filterMap_eq_nil.mpr
      intro b hbmem
      rcases has3050_cleanRows (List.mem_map.mp (mem_firstDedup.mp hbmem) |>.imp
        (fun r h => ⟨h.1, h.2⟩) |> fun h => List.mem_map.mpr h) with ⟨r, hr, hbase, htok⟩
      have h30 : has3050 (cleanRows rs) b = true :=
        List.any_eq_true.mpr ⟨r, hr, by rw [hbase, htok]; simp⟩
      rw [if_pos h30]
    have hsorted : List.Sorted rowLe (cleanRows rs) := List.sorted_insertionSort rowLe _
    show List.insertionSort rowLe
      ((cleanRows rs).filter keepRow ++ synthRows ((cleanRows rs).filter keepRow))
        = cleanRows rs
    rw [hfilter, hsynth, List.append_nil]
    exact List.Sorted.insertionSort_eq hsorted
  exact ⟨main rows, main _, main _⟩

/-! ## Claim C3 -/

/-- C3 counterexample: with two identical surviving `A-3050` input rows, the
filtered output contains two rows whose base is `A` and whose length token
is `3050`, so "exactly one output row has length token 3050 per base" fails
(only "at least one" holds). -/
theorem c3_counterexample :
    (clean_csv_rows ["1,d,A-3050", "1,d,A-3050"]).countP
        (fun r => baseOfR r == "A" && tokOfR r == "3050") = 2 ∧
    "A" ∈ (clean_csv_rows ["1,d,A-3050", "1,d,A-3050"]).map baseOfR := by
  constructor
  · decide
  · decide

/-- C3 amended: for every base profile key present in the filter pass's
output there is at least one (not exactly one) output row with length token
3050; and a row is synthesized only when no surviving row for that base has
token 3050 — when one exists, the number of (base, 3050) rows is exactly the
number among the surviving input rows. -/
theorem c3_at_least_one_3050 (rows : List Row) :
    (∀ b, b ∈ (cleanRows rows).map baseOfR →
      ∃ r ∈ cleanRows rows, baseOfR r = b ∧ tokOfR r = "3050") ∧
    (∀ b, has3050 (rows.filter keepRow) b = true →
      (cleanRows rows).countP (fun r => baseOfR r == b && tokOfR r == "3050")
        = (rows.filter keepRow).countP
            (fun r => baseOfR r == b && tokOfR r == "3050")) := by
  constructor
  · intro b hb
    exact has3050_cleanRows hb
  · intro b h30
    have hperm : List.Perm (cleanRows rows)
        (rows.filter keepRow ++ synthRows (rows.filter keepRow)) :=
      List.perm_insertionSort rowLe _
    rw [List.Perm.countP_eq _ hperm, List.countP_append]
    have hzero : (synthRows (rows.filter keepRow)).countP
        (fun r => baseOfR r == b && tokOfR r == "3050") = 0 := by
      apply List.countP_eq_zero.mpr
      intro r hr
      rcases mem_synthRows hr with ⟨b1, fr, hb1mem, h301, _, hre⟩
      rcases List.mem_map.mp (mem_firstDedup.mp hb1mem) with ⟨r2, _, hb2⟩
      have hb1x : b1 = make_key_from_sku (pyStrip (field r2 2)) := by
        rw [← hb2]
        rfl
      intro hcontra
      have hcontra2 : baseOfR r = b ∧ tokOfR r = "3050" := by simpa using hcontra
      have hbr : baseOfR r = b1 := by
        rw [hre, hb1x]
        exact baseOfR_mk3050 _ _
      have hb1b : b1 = b := by
        rw [← hbr]
        exact hcontra2.1
      rw [hb1b] at h301
      rw [h301] at h30
      cases h30
    rw [hzero, Nat.add_zero]

/-- Witness for C3 (amended) at a concrete input that already has a 3050
row. -/
theorem c3_at_least_one_3050_witness :
    (∃ r ∈ cleanRows [["1", "d", "A-3050"]], baseOfR r = "A" ∧ tokOfR r = "3050") ∧
    (cleanRows [["1", "d", "A-3050"]]).countP
        (fun r => baseOfR r == "A" && tokOfR r == "3050")
      = ([["1", "d", "A-3050"]].filter keepRow).countP
          (fun r => baseOfR r == "A" && tokOfR r == "3050") :=
  ⟨(c3_at_least_one_3050 [["1", "d", "A-3050"]]).1 "A" (by decide),
   (c3_at_least_one_3050 [["1", "d", "A-3050"]]).2 "A" (by decide)⟩

/-! ## Field-level frame lemmas -/

theorem field_padTo (n : Nat) (r : Row) (j : Nat) : field (padTo n r) j = field r j := by
  unfold field padTo
  rw [List.getD_eq_getElem?_getD, List.getD_eq_getElem?_getD, List.getElem?_append]
  by_cases hj : j < r.length
  · rw [if_pos hj]
  · rw [if_neg hj]
    rw [List.getElem?_eq_none (Nat.le_of_not_lt hj)]
    rw [List.getElem?_replicate]
    split <;> rfl

theorem field_set_ne {i j : Nat} (h : i ≠ j) (r : Row) (v : String) :
    field (r.set i v) j = field r j := by
  unfold field
  rw [List.getD_eq_getElem?_getD, List.getD_eq_getElem?_getD, List.getElem?_set_ne h]

/-! ## Backfill pass: per-row case analysis -/

theorem fillRow_cases (pm : List (String × PyNum)) (r : Row) :
    fillRow pm r = (r, false) ∨
    ((fillRow pm r).2 = true ∧
      (∃ v, (fillRow pm r).1 = (padTo 6 r).set 5 v) ∧
      endsWithB (pyStrip (field r 2)) "-3050" = true ∧
      is_numeric (if 5 < r.length then pyStrip (field r 5) else "") = false) := by
  unfold fillRow
  dsimp only
  by_cases h1 : r.length < 3
  · rw [if_pos h1]
    exact Or.inl rfl
  · rw [if_neg h1]
    by_cases h2 : endsWithB (pyStrip (field r 2)) "-3050" = true
    · rw [if_neg (by rw [h2]; simp)]
      by_cases h3 : is_numeric (if 5 < r.length then pyStrip (field r 5) else "") = true
      · rw [if_pos h3]
        exact Or.inl rfl
      · rw [if_neg h3]
        cases hlk : List.lookup (pyReplace (pyStrip (field r 2)) "-3050" "-1000") pm with
        | none => exact Or.inl rfl
        | some v =>
          exact Or.inr ⟨rfl, ⟨round2 (v.1 * 61, v.2 * 20), rfl⟩, h2,
            Bool.not_eq_true _ ▸ h3⟩
    · have h2f : endsWithB (pyStrip (field r 2)) "-3050" = false := Bool.not_eq_true _ ▸ h2
      rw [if_pos (by rw [h2f]; rfl)]
      exact Or.inl rfl

theorem fillPass_getD (rows : List Row) (i : Nat) :
    (fillPass rows).1.getD i [] = (fillRow (price_map rows) (rows.getD i [])).1 := by
  unfold fillPass
  dsimp only
  rw [List.map_map, List.getD_eq_getElem?_getD, List.getElem?_map,
    List.getD_eq_getElem?_getD]
  cases h : rows[i]? with
  | none => rfl
  | some r => rfl

/-! ## Claim C8 -/

/-- C8: the backfill pass rewrites the stored table only when at least one
row was updated; when it does, the only field values changed (reading
missing trailing fields as empty) are price fields (index 5) of rows whose
stripped SKU ends in `-3050` and whose price was not numeric; row order,
row count and all other fields are preserved. -/
theorem c8_frame (rows : List Row) :
    ((fillPass rows).2 = 0 → storedAfterFill rows = rows) ∧
    (fillPass rows).1.length = rows.length ∧
    (∀ i j, j ≠ 5 → field ((fillPass rows).1.getD i []) j = field (rows.getD i []) j) ∧
    (∀ i, field ((fillPass rows).1.getD i []) 5 ≠ field (rows.getD i []) 5 →
      endsWithB (pyStrip (field (rows.getD i []) 2)) "-3050" = true ∧
      is_numeric (if 5 < (rows.getD i []).length
          then pyStrip (field (rows.getD i []) 5) else "") = false) := by
  refine ⟨?_, ?_, ?_, ?_⟩
  · intro h0
    unfold storedAfterFill
    rw [h0, if_neg (lt_irrefl 0)]
  · unfold fillPass
    dsimp only
    rw [List.length_map, List.length_map]
  · intro i j hj
    rw [fillPass_getD]
    rcases fillRow_cases (price_map rows) (rows.getD i []) with hc | ⟨_, ⟨v, hv⟩, _, _⟩
    · rw [hc]
    · rw [hv, field_set_ne (fun h => hj h.symm), field_padTo]
  · intro i hne
    rw [fillPass_getD] at hne
    rcases fillRow_cases (price_map rows) (rows.getD i []) with hc | ⟨_, _, hends, hnum⟩
    · rw [hc] at hne
      exact absurd rfl hne
    · exact ⟨hends, hnum⟩

/-- A table the backfill pass does not touch (price already numeric). -/
def c8zero : List Row := [["1", "d", "A-3050", "", "", "250.00", ""]]

/-- A table with one blank `-3050` price backfilled from the `-1000` row. -/
def c8upd : List Row :=
  [["1", "d", "A-1000", "", "", "100.00", ""],
   ["2", "d", "A-3050", "", "", "", ""]]

/-- Witness for C8: the untouched table is stored unchanged; on the updated
table, off-price fields are preserved and the changed price row is a
`-3050` row with non-numeric price. -/
theorem c8_frame_witness :
    storedAfterFill c8zero = c8zero ∧
    field ((fillPass c8upd).1.getD 1 []) 4 = field (c8upd.getD 1 []) 4 ∧
    (endsWithB (pyStrip (field (c8upd.getD 1 []) 2)) "-3050" = true ∧
      is_numeric (if 5 < (c8upd.getD 1 []).length
          then pyStrip (field (c8upd.getD 1 []) 5) else "") = false) :=
  ⟨(c8_frame c8zero).1 (by decide),
   (c8_frame c8upd).2.2.1 1 4 (by decide),
   (c8_frame c8upd).2.2.2 1 (by decide)⟩

/-! ## Claim C6 -/

/-- The concrete table of claim C6. -/
def c6table : List Row :=
  [["1", "d", "A-1000", "", "", "100.00", ""],
   ["2", "d", "A-3050", "", "", "", ""],
   ["3", "d", "B-1000", "", "", "100.00", ""],
   ["4", "d", "B-3050", "", "", "250.00", ""]]

/-- C6: with a `-1000` price of 100.00 and ratio 3.05, the backfill sets the
blank `-3050` price to "305.00" (half-up to 2 decimals) and leaves a
`-3050` row that already has the numeric price "250.00" unchanged. -/
theorem c6_backfill_scaling :
    (fillPass c6table).1 =
      [["1", "d", "A-1000", "", "", "100.00", ""],
       ["2", "d", "A-3050", "", "", "305.00", ""],
       ["3", "d", "B-1000", "", "", "100.00", ""],
       ["4", "d", "B-3050", "", "", "250.00", ""]] ∧
    (fillPass c6table).2 = 1 := by
  constructor
  · decide
  · decide

/-! ## Claim C4 -/

/-- The concrete table of the C4 counterexample: the base `A-3050` itself
contains the substring `-3050`. -/
def c4table : List Row :=
  [["1", "d", "A-3050-3050", "", "", "", ""],
   ["2", "d", "A-3050-1000", "", "", "100.00", ""],
   ["3", "d", "A-1000-1000", "", "", "50.00", ""]]

/-- C4 counterexample: for the SKU `A-3050-3050` the scaling source looked
up is `A-1000-1000` (every occurrence of `-3050` replaced), not the claimed
`A-3050-1000` (base with suffix `-1000`); consequently the blank price is
filled with 50.00 x 3.05 = "152.50" from `A-1000-1000` instead of
100.00 x 3.05 = "305.00" from `A-3050-1000`. -/
theorem c4_counterexample :
    pyReplace "A-3050-3050" "-3050" "-1000" = "A-1000-1000" ∧
    sku_base "A-3050-3050" ++ "-1000" = "A-3050-1000" ∧
    ("A-1000-1000" : String) ≠ "A-3050-1000" ∧
    (fillPass c4table).1 =
      [["1", "d", "A-3050-3050", "", "", "152.50", ""],
       ["2", "d", "A-3050-1000", "", "", "100.00", ""],
       ["3", "d", "A-1000-1000", "", "", "50.00", ""]] := by
  refine ⟨by decide, by decide, by decide, by decide⟩

theorem replaceFuel_nil (pat rep : List Char) (fuel : Nat) :
    replaceFuel pat rep fuel [] = [] := by
  cases fuel <;> rfl

theorem replaceFuel_unique {pat rep : List Char} (hne : pat ≠ []) :
    ∀ (a : List Char) (fuel : Nat),
      (∀ i, i < a.length → pat.isPrefixOf ((a ++ pat).drop i) = false) →
      a.length + pat.length ≤ fuel →
      replaceFuel pat rep fuel (a ++ pat) = a ++ rep := by
  intro a
  induction a with
  | nil =>
    intro fuel _ hfuel
    cases fuel with
    | zero =>
      exfalso
      have hlen : pat.length = 0 := Nat.le_zero.mp (by simpa using hfuel)
      exact hne (List.length_eq_zero.mp hlen)
    | succ f =>
      rcases List.exists_cons_of_ne_nil hne with ⟨p, pt, hp⟩
      subst hp
      show replaceFuel (p :: pt) rep (f + 1) ([] ++ p :: pt) = [] ++ rep
      rw [List.nil_append, List.nil_append]
      unfold replaceFuel
      rw [if_pos ⟨hne, List.isPrefixOf_iff_prefix.mpr (List.prefix_refl _)⟩]
      rw [show (p :: pt).drop (p :: pt).length = [] from List.drop_length _]
      rw [replaceFuel_nil, List.append_nil]
  | cons x a' ih =>
    intro fuel hocc hfuel
    cases fuel with
    | zero =>
      exfalso
      have : (x :: a').length + pat.length = 0 := Nat.le_zero.mp hfuel
      simp [List.length_cons, Nat.succ_add] at this
    | succ f =>
      show replaceFuel pat rep (f + 1) (x :: (a' ++ pat)) = x :: (a' ++ rep)
      unfold replaceFuel
      have hnp : ¬(pat ≠ [] ∧ pat.isPrefixOf (x :: (a' ++ pat)) = true) := by
        rintro ⟨_, hpre⟩
        have h0 := hocc 0 (by simp)
        rw [List.drop_zero, List.cons_append] at h0
        rw [h0] at hpre
        cases hpre
      rw [if_neg hnp]
      congr 1
      apply ih f
      · intro i hi
        have := hocc (i + 1) (by simpa using Nat.succ_lt_succ hi)
        rw [List.cons_append] at this
        simpa using this
      · have := hfuel
        rw [List.length_cons] at this
        omega

/-- C4 amended: the scaling source key is the SKU with every occurrence of
`-3050` replaced by `-1000` (Python `str.replace`).  For an SKU whose final
`-3050` token is its only occurrence of the substring `-3050` — in
particular whenever the base contains no `-3050` — this coincides with the
base followed by `-1000`; SKUs whose base contains `-3050` are mapped to a
different key (see the counterexample). -/
theorem c4_lookup_key (b : String)
    (h : ∀ i, i < b.data.length →
      "-3050".data.isPrefixOf ((b.data ++ "-3050".data).drop i) = false) :
    pyReplace (b ++ "-3050") "-3050" "-1000" = b ++ "-1000" := by
  unfold pyReplace replaceAllC
  have hdata : (b ++ "-3050").data = b.data ++ "-3050".data := String.data_append b _
  rw [hdata]
  rw [replaceFuel_unique (by decide) b.data _ h (le_of_eq (List.length_append _ _).symm)]
  rw [← String.data_append, mk_data]

/-- Witness for C4 (amended) at the SKU `A-3050`. -/
theorem c4_lookup_key_witness :
    (∀ i, i < ("A" : String).data.length →
      "-3050".data.isPrefixOf ((("A" : String).data ++ "-3050".data).drop i) = false) ∧
    pyReplace ("A" ++ "-3050") "-3050" "-1000" = "A" ++ "-1000" :=
  ⟨by decide, c4_lookup_key "A" (by decide)⟩

/-! ## Claim C7 -/

/-- C7 first scenario: a `-1000` row with price 120 and no `-1500` row. -/
def c7a : List Row :=
  [["1", "d", "C-1000", "", "", "120", ""],
   ["2", "d", "C-3050", "", "", "", ""]]

/-- C7 second scenario: only a `-1500` row with price 150. -/
def c7b : List Row :=
  [["1", "d", "C-1500", "", "", "150", ""],
   ["2", "d", "C-3050", "", "", "", ""]]

/-- C7: the sync pass fills a blank `-3050` price with
120/1000 x 3050 = "366.00" from a `-1000` row, and with
150/1500 x 3050 = "305.00" from a `-1500` row when no `-1000` rate exists. -/
theorem c7_sync_scaling :
    updateRows c7a =
      [["1", "d", "C-1000", "", "", "120", ""],
       ["2", "d", "C-3050", "", "", "366.00", ""]] ∧
    updateRows c7b =
      [["1", "d", "C-1500", "", "", "150", ""],
       ["2", "d", "C-3050", "", "", "305.00", ""]] := by
  constructor
  · decide
  · decide

/-! ## Claim C1 -/

/-- The concrete table of the C1 counterexample: the `B-1000` row has a
numeric price but a blank (non-numeric) cost, and the `B-1500` row has both
a numeric price (15) and a numeric cost (30). -/
def c1table : List Row :=
  [["1", "d", "B-1000", "", "", "10", ""],
   ["2", "d", "B-1500", "", "", "15", "30"],
   ["3", "d", "B-3050", "", "", "", ""]]

/-- C1 counterexample: although no `-1000` row yields a numeric cost for
base `B` and the `-1500` row has the numeric cost 30, the cost-per-mm map
has no entry for `B` (the fallback loop skips every base that already has a
price rate), so the blank `B-3050` cost stays blank instead of receiving
30/1500 x 3050 = "61.00"; the claimed independent cost fallback does not
happen. -/
theorem c1_counterexample :
    is_numeric "30" = true ∧
    is_numeric "" = false ∧
    (List.lookup "B" (ratesFinal c1table).1).isSome = true ∧
    List.lookup "B" (ratesFinal c1table).2 = none ∧
    updateRows c1table =
      [["1", "d", "B-1000", "", "", "10", ""],
       ["2", "d", "B-1500", "", "", "15", "30"],
       ["3", "d", "B-3050", "", "", "30.50", ""]] := by
  refine ⟨by decide, by decide, by decide, by decide, by decide⟩

theorem lookup_cons_ne {k b : String} {v : PyNum} {m : List (String × PyNum)}
    (h : (b == k) = false) : List.lookup b ((k, v) :: m) = List.lookup b m := by
  rw [List.lookup_cons]
  rw [h]

theorem rateStep2_preserve {acc : List (String × PyNum) × List (String × PyNum)}
    {b : String} (hb : (List.lookup b acc.1).isSome = true) (r : Row) :
    List.lookup b (rateStep2 acc r).1 = List.lookup b acc.1 ∧
    List.lookup b (rateStep2 acc r).2 = List.lookup b acc.2 := by
  unfold rateStep2
  dsimp only
  by_cases h1 : r.length < 3
  · rw [if_pos h1]
    exact ⟨rfl, rfl⟩
  · rw [if_neg h1]
    by_cases h2 : (List.lookup (sku_base (pyStrip (field r 2))) acc.1).isSome = true
    · rw [if_pos h2]
      exact ⟨rfl, rfl⟩
    · rw [if_neg h2]
      by_cases h3 : (lastTok (pyStrip (field r 2)) == "1500") = true
      · rw [if_pos h3]
        have hbb : (b == sku_base (pyStrip (field r 2))) = false := by
          cases hcase : (b == sku_base (pyStrip (field r 2))) with
          | false => rfl
          | true =>
            exfalso
            rw [beq_iff_eq.mp hcase] at hb
            exact h2 hb
        constructor
        · cases hp : (if 5 < r.length then to_float (field r 5) else none) with
          | none => rfl
          | some p => exact lookup_cons_ne hbb
        · cases hp : (if 6 < r.length then to_float (field r 6) else none) with
          | none => rfl
          | some c => exact lookup_cons_ne hbb
      · rw [if_neg h3]
        exact ⟨rfl, rfl⟩

theorem foldl_rateStep2_preserve {b : String} :
    ∀ (l : List Row) (acc : List (String × PyNum) × List (String × PyNum)),
      (List.lookup b acc.1).isSome = true →
      List.lookup b (l.foldl rateStep2 acc).1 = List.lookup b acc.1 ∧
      List.lookup b (l.foldl rateStep2 acc).2 = List.lookup b acc.2 := by
  intro l
  induction l with
  | nil =>
    intro acc _
    exact ⟨rfl, rfl⟩
  | cons r rs ih =>
    intro acc hb
    have hstep := rateStep2_preserve hb r
    have hb2 : (List.lookup b (rateStep2 acc r).1).isSome = true := by
      rw [hstep.1]
      exact hb
    have hrec := ih (rateStep2 acc r) hb2
    exact ⟨hrec.1.trans hstep.1, hrec.2.trans hstep.2⟩

/-- C1 amended: the `-1500` fallback is gated on the price rate alone.  For
any base that obtained a price rate from a `-1000` row, the fallback loop
changes neither its price rate nor its cost rate: in particular the cost
rate never falls back to the `-1500` row for such a base, even when the
`-1000` row had no numeric cost and the `-1500` row has one. -/
theorem c1_cost_fallback_gated (rows : List Row) (b : String)
    (h : (List.lookup b (ratesAfter1 rows).1).isSome = true) :
    List.lookup b (ratesFinal rows).1 = List.lookup b (ratesAfter1 rows).1 ∧
    List.lookup b (ratesFinal rows).2 = List.lookup b (ratesAfter1 rows).2 :=
  foldl_rateStep2_preserve rows (ratesAfter1 rows) h

/-- Witness for C1 (amended) at the counterexample table. -/
theorem c1_cost_fallback_gated_witness :
    (List.lookup "B" (ratesAfter1 c1table).1).isSome = true ∧
    (List.lookup "B" (ratesFinal c1table).1 = List.lookup "B" (ratesAfter1 c1table).1 ∧
     List.lookup "B" (ratesFinal c1table).2 = List.lookup "B" (ratesAfter1 c1table).2) :=
  ⟨by decide, c1_cost_fallback_gated c1table "B" (by decide)⟩

/-! ## Claim C10 -/

/-- C10 counterexample: the empty string is a hyphen-free SKU on which the
two base-key utilities agree (both return the empty string), refuting
"disagree on every hyphen-free SKU". -/
theorem c10_counterexample :
    '-' ∉ ("" : String).data ∧
    make_key_from_sku "" = "" ∧
    sku_base "" = "" := by
  refine ⟨by decide, by decide, by decide⟩

/-- C10 amended: the two utilities agree exactly on SKUs containing a
hyphen (both return all tokens but the last, joined); on every non-empty
hyphen-free SKU they disagree: `make_key_from_sku` returns the empty string
while `sku_base` returns the SKU unchanged.  On the empty SKU both return
the empty string. -/
theorem c10_base_key_agreement (s : String) :
    ('-' ∈ s.data → make_key_from_sku s = sku_base s) ∧
    (s ≠ "" → '-' ∉ s.data →
      make_key_from_sku s = "" ∧ sku_base s = s ∧ make_key_from_sku s ≠ sku_base s) := by
  constructor
  · intro hm
    have hlen : 2 ≤ (splitCh '-' s.data).length := by
      rw [splitCh_length]
      have := List.count_pos_iff.mpr hm
      omega
    rw [make_key_eq]
    unfold sku_base
    dsimp only
    rw [if_neg (by omega)]
  · intro hne hm
    have hsplit : splitCh '-' s.data = [s.data] := splitCh_of_not_mem hm
    have h1 : make_key_from_sku s = "" := by
      rw [make_key_eq, hsplit]
      rfl
    have h2 : sku_base s = s := by
      unfold sku_base
      dsimp only
      rw [hsplit]
      rw [if_pos (by simp)]
    refine ⟨h1, h2, ?_⟩
    rw [h1, h2]
    exact fun e => hne e.symm

/-- Witness for C10 (amended): agreement on `A-1000`, disagreement on the
non-empty hyphen-free SKU `ABC`. -/
theorem c10_base_key_agreement_witness :
    ('-' ∈ ("A-1000" : String).data) ∧
    make_key_from_sku "A-1000" = sku_base "A-1000" ∧
    (("ABC" : String) ≠ "" ∧ '-' ∉ ("ABC" : String).data) ∧
    (make_key_from_sku "ABC" = "" ∧ sku_base "ABC" = "ABC" ∧
      make_key_from_sku "ABC" ≠ sku_base "ABC") :=
  ⟨by decide,
   (c10_base_key_agreement "A-1000").1 (by decide),
   ⟨by decide, by decide⟩,
   (c10_base_key_agreement "ABC").2 (by decide) (by decide)⟩

end CncTools
